import Mathlib

/-!
Verification of the pandoc document-model library: a shallow embedding of
the Rust sources (types.rs and lib.rs) together with theorems about the
wire codec, the tree walker and the conversion pipeline.

Conventions of the embedding:
* Rust u64 integers are modelled by Nat (the codec never computes with
  them, it only carries them), i64 by Int, and f64 table widths by Rat
  (the codec carries the numeric payload unchanged; no floating-point
  arithmetic occurs anywhere in the library).
* A function that can panic (unwrap on None, in convert_entry and in
  Pandoc::new) is modelled with an Option result, none standing for the
  panic.
* serde_json JSON values are modelled by the inductive Value below,
  mirroring the Null, Bool, I64, U64, F64, String, Array and Object
  constructors of serde_json 0.7; objects are association lists.
-/

namespace PandocRs

/-- Model of a serde_json JSON value (serde_json 0.7: Null, Bool, I64,
U64, F64, String, Array, Object). -/
inductive Value where
  | null
  | bool (b : Bool)
  | i64 (n : Int)
  | u64 (n : Nat)
  | f64 (q : Rat)
  | str (s : String)
  | arr (xs : List Value)
  | obj (kvs : List (String × Value))

/-- Model of serde_json Value::as_str. -/
def Value.asStr : Value → Option String
  | .str s => some s
  | _ => none

/-- Lookup of a key in a JSON object, modelling BTreeMap::get. -/
def lookupKey (k : String) : List (String × Value) → Option Value
  | [] => none
  | (k2, v) :: tl => if k2 = k then some v else lookupKey k tl

theorem lookupKey_sizeOf {k : String} : ∀ {kvs : List (String × Value)} {v : Value},
    lookupKey k kvs = some v → sizeOf v < sizeOf kvs := by
  intro kvs
  induction kvs with
  | nil => intro v h; simp [lookupKey] at h
  | cons hd tl ih =>
    intro v h
    simp only [lookupKey] at h
    split at h
    · cases h; cases hd; simp; omega
    · have := ih h
      cases hd; simp; omega

/-- Enumeration ListNumberStyle from types.rs. -/
inductive ListNumberStyle where
  | DefaultStyle
  | Example
  | Decimal
  | LowerRoman
  | UpperRoman
  | LowerAlpha
  | UpperAlpha

/-- Enumeration ListNumberDelim from types.rs. -/
inductive ListNumberDelim where
  | DefaultDelim
  | Period
  | OneParen
  | TwoParens

/-- Enumeration Alignment from types.rs. -/
inductive Alignment where
  | AlignLeft
  | AlignRight
  | AlignCenter
  | AlignDefault

/-- Enumeration QuoteType from types.rs. -/
inductive QuoteType where
  | SingleQuote
  | DoubleQuote

/-- Enumeration MathType from types.rs. -/
inductive MathType where
  | DisplayMath
  | InlineMath

/-- Enumeration CitationMode from types.rs. -/
inductive CitationMode where
  | AuthorInText
  | SuppressAuthor
  | NormalCitation

/-- Type alias Format = String from types.rs. -/
abbrev Format := String

/-- Type alias Attr = (String, Vec of String, Vec of (String, String)). -/
abbrev Attr := String × List String × List (String × String)

/-- Type alias Target = (String, String). -/
abbrev Target := String × String

/-- Type alias ListAttributes = (u64, ListNumberStyle, ListNumberDelim). -/
abbrev ListAttributes := Nat × ListNumberStyle × ListNumberDelim

mutual
/-- The Inline enumeration from types.rs (18 variants). -/
inductive Inline where
  | Str (s : String)
  | Emph (v : List Inline)
  | Strong (v : List Inline)
  | Strikeout (v : List Inline)
  | Superscript (v : List Inline)
  | Subscript (v : List Inline)
  | SmallCaps (v : List Inline)
  | Quoted (q : QuoteType) (v : List Inline)
  | Cite (c : List Citation) (v : List Inline)
  | Code (a : Attr) (s : String)
  | Space
  | SoftBreak
  | LineBreak
  | Math (t : MathType) (s : String)
  | RawInline (f : Format) (s : String)
  | Link (a : Attr) (v : List Inline) (t : Target)
  | Image (a : Attr) (v : List Inline) (t : Target)
  | Span (a : Attr) (v : List Inline)
/-- The Citation struct from types.rs: id, prefix inlines, suffix inlines,
mode, note number and hash. -/
inductive Citation where
  | mk (citationId : String) (citationPre : List Inline) (citationSuf : List Inline)
       (citationMode : CitationMode) (citationNoteNum : Nat) (citationHash : Nat)
end

/-- The Block enumeration from types.rs (13 variants); TableCell is a
list of Block. -/
inductive Block where
  | Plain (is2 : List Inline)
  | Para (is2 : List Inline)
  | CodeBlock (a : Attr) (s : String)
  | RawBlock (f : Format) (s : String)
  | BlockQuote (bs : List Block)
  | OrderedList (la : ListAttributes) (bss : List (List Block))
  | BulletList (bss : List (List Block))
  | DefinitionList (items : List (List Inline × List (List Block)))
  | Header (n : Nat) (a : Attr) (is2 : List Inline)
  | HorizontalRule
  | Table (capt : List Inline) (als : List Alignment) (ws : List Rat)
          (hs : List (List Block)) (rs : List (List (List Block)))
  | Div (a : Attr) (bs : List Block)
  | Null

/-- The MetaValue enumeration from types.rs; the BTreeMap payload is
modelled as an association list. -/
inductive MetaValue where
  | MetaMap (m : List (String × MetaValue))
  | MetaList (l : List MetaValue)
  | MetaBool (b : Bool)
  | MetaString (s : String)
  | MetaInlines (is2 : List Inline)
  | MetaBlocks (bs : List Block)

/-- The Meta struct from lib.rs: the unMeta mapping. -/
structure Meta where
  un_meta : List (String × MetaValue)

/-- The Pandoc struct from lib.rs: meta and blocks. -/
structure Pandoc where
  meta : Meta
  blocks : List Block

/-! ## The tree walker (lib.rs, trait Walkable)

The blanket impl of Walkable of T for T applies f once; the Vec impl maps
the element walk over the vector; the impl of Walkable of Inline for Block
rebuilds each Block around walked children.  Crucially there is no
recursive impl of Walkable of Inline for Inline, so walking an Inline is
one application of f; and the Para arm of the Block impl rebuilds the
result with the Plain constructor (this is what the source does). -/

/-- Walk of an Inline: the blanket impl of Walkable of T for T, which is
a single application of f. -/
def walkInline (f : Inline → Inline) (i : Inline) : Inline := f i

/-- Walk of a Vec of Inline: the Vec impl maps the element walk. -/
def walkInlines (f : Inline → Inline) (is2 : List Inline) : List Inline :=
  is2.map (walkInline f)

mutual
/-- Walk of a Block (impl Walkable of Inline for Block in lib.rs),
transcribed arm by arm; the catch-all arm of the source covers CodeBlock,
RawBlock, HorizontalRule and Null. -/
def walkBlock (f : Inline → Inline) : Block → Block
  | .Plain is2 => .Plain (walkInlines f is2)
  | .Para is2 => .Plain (walkInlines f is2)
  | .CodeBlock a s => .CodeBlock a s
  | .RawBlock fm s => .RawBlock fm s
  | .BlockQuote bs => .BlockQuote (walkBlocks f bs)
  | .OrderedList la bss => .OrderedList la (walkBlockss f bss)
  | .BulletList bss => .BulletList (walkBlockss f bss)
  | .DefinitionList items => .DefinitionList (walkDefItems f items)
  | .Header n a is2 => .Header n a (walkInlines f is2)
  | .HorizontalRule => .HorizontalRule
  | .Table capt als ws hs rs =>
      .Table (walkInlines f capt) als ws (walkBlockss f hs) (walkBlocksss f rs)
  | .Div a bs => .Div a (walkBlocks f bs)
  | .Null => .Null
termination_by b => sizeOf b
decreasing_by
  all_goals (simp <;> omega)
/-- Walk of a Vec of Block (Vec impl). -/
def walkBlocks (f : Inline → Inline) : List Block → List Block
  | [] => []
  | b :: bs => walkBlock f b :: walkBlocks f bs
termination_by bs => sizeOf bs
decreasing_by
  all_goals (simp <;> omega)
/-- Walk of a Vec of Vec of Block (Vec impl applied twice). -/
def walkBlockss (f : Inline → Inline) : List (List Block) → List (List Block)
  | [] => []
  | bs :: bss => walkBlocks f bs :: walkBlockss f bss
termination_by bss => sizeOf bss
decreasing_by
  all_goals (simp <;> omega)
/-- Walk of a Vec of Vec of Vec of Block (table rows). -/
def walkBlocksss (f : Inline → Inline) : List (List (List Block)) → List (List (List Block))
  | [] => []
  | bss :: bsss => walkBlockss f bss :: walkBlocksss f bsss
termination_by bsss => sizeOf bsss
decreasing_by
  all_goals (simp <;> omega)
/-- Walk of the DefinitionList payload: each pair walks its inlines and
its nested block lists (the into_iter map of the source). -/
def walkDefItems (f : Inline → Inline) :
    List (List Inline × List (List Block)) → List (List Inline × List (List Block))
  | [] => []
  | (is2, bss) :: tl => (walkInlines f is2, walkBlockss f bss) :: walkDefItems f tl
termination_by items => sizeOf items
decreasing_by
  all_goals (simp <;> omega)
end

/-! ## The walker contract of the specification (claim side)

The specification demands a bottom-up rewrite of every reachable Inline:
children first, then the rebuilt containing Inline is itself passed to f.
The following definitions follow the words of the specification and are
used only to compare the source walker against that contract. -/

mutual
/-- Deep bottom-up walk of an Inline following the words of the
specification: descend fully into nested children first, rebuild, then
apply f to the rebuilt node. -/
def walkInlineDeep (f : Inline → Inline) : Inline → Inline
  | .Str s => f (.Str s)
  | .Emph v => f (.Emph (walkInlinesDeep f v))
  | .Strong v => f (.Strong (walkInlinesDeep f v))
  | .Strikeout v => f (.Strikeout (walkInlinesDeep f v))
  | .Superscript v => f (.Superscript (walkInlinesDeep f v))
  | .Subscript v => f (.Subscript (walkInlinesDeep f v))
  | .SmallCaps v => f (.SmallCaps (walkInlinesDeep f v))
  | .Quoted q v => f (.Quoted q (walkInlinesDeep f v))
  | .Cite c v => f (.Cite (walkCitationsDeep f c) (walkInlinesDeep f v))
  | .Code a s => f (.Code a s)
  | .Space => f .Space
  | .SoftBreak => f .SoftBreak
  | .LineBreak => f .LineBreak
  | .Math t s => f (.Math t s)
  | .RawInline fm s => f (.RawInline fm s)
  | .Link a v t => f (.Link a (walkInlinesDeep f v) t)
  | .Image a v t => f (.Image a (walkInlinesDeep f v) t)
  | .Span a v => f (.Span a (walkInlinesDeep f v))
termination_by i => sizeOf i
decreasing_by
  all_goals (simp <;> omega)
/-- Deep walk of a list of Inline, left to right. -/
def walkInlinesDeep (f : Inline → Inline) : List Inline → List Inline
  | [] => []
  | i :: is2 => walkInlineDeep f i :: walkInlinesDeep f is2
termination_by is2 => sizeOf is2
decreasing_by
  all_goals (simp <;> omega)
/-- Deep walk of a Citation: its prefix and suffix inlines are reachable
Inline values and are rewritten. -/
def walkCitationDeep (f : Inline → Inline) : Citation → Citation
  | .mk cid pre suf mode num hash =>
      .mk cid (walkInlinesDeep f pre) (walkInlinesDeep f suf) mode num hash
termination_by c => sizeOf c
decreasing_by
  all_goals (simp <;> omega)
/-- Deep walk of a list of Citation. -/
def walkCitationsDeep (f : Inline → Inline) : List Citation → List Citation
  | [] => []
  | c :: cs => walkCitationDeep f c :: walkCitationsDeep f cs
termination_by cs => sizeOf cs
decreasing_by
  all_goals (simp <;> omega)
end

mutual
/-- Deep walk of a Block following the specification: every Inline
reachable at any nesting depth is rewritten bottom-up, and each Block is
rebuilt with its own constructor (Para stays Para). -/
def walkBlockDeep (f : Inline → Inline) : Block → Block
  | .Plain is2 => .Plain (walkInlinesDeep f is2)
  | .Para is2 => .Para (walkInlinesDeep f is2)
  | .CodeBlock a s => .CodeBlock a s
  | .RawBlock fm s => .RawBlock fm s
  | .BlockQuote bs => .BlockQuote (walkBlocksDeep f bs)
  | .OrderedList la bss => .OrderedList la (walkBlockssDeep f bss)
  | .BulletList bss => .BulletList (walkBlockssDeep f bss)
  | .DefinitionList items => .DefinitionList (walkDefItemsDeep f items)
  | .Header n a is2 => .Header n a (walkInlinesDeep f is2)
  | .HorizontalRule => .HorizontalRule
  | .Table capt als ws hs rs =>
      .Table (walkInlinesDeep f capt) als ws (walkBlockssDeep f hs) (walkBlocksssDeep f rs)
  | .Div a bs => .Div a (walkBlocksDeep f bs)
  | .Null => .Null
termination_by b => sizeOf b
decreasing_by
  all_goals (simp <;> omega)
/-- Deep walk of a list of Block. -/
def walkBlocksDeep (f : Inline → Inline) : List Block → List Block
  | [] => []
  | b :: bs => walkBlockDeep f b :: walkBlocksDeep f bs
termination_by bs => sizeOf bs
decreasing_by
  all_goals (simp <;> omega)
/-- Deep walk of a list of lists of Block. -/
def walkBlockssDeep (f : Inline → Inline) : List (List Block) → List (List Block)
  | [] => []
  | bs :: bss => walkBlocksDeep f bs :: walkBlockssDeep f bss
termination_by bss => sizeOf bss
decreasing_by
  all_goals (simp <;> omega)
/-- Deep walk of table rows. -/
def walkBlocksssDeep (f : Inline → Inline) : List (List (List Block)) → List (List (List Block))
  | [] => []
  | bss :: bsss => walkBlockssDeep f bss :: walkBlocksssDeep f bsss
termination_by bsss => sizeOf bsss
decreasing_by
  all_goals (simp <;> omega)
/-- Deep walk of the DefinitionList payload. -/
def walkDefItemsDeep (f : Inline → Inline) :
    List (List Inline × List (List Block)) → List (List Inline × List (List Block))
  | [] => []
  | (is2, bss) :: tl => (walkInlinesDeep f is2, walkBlockssDeep f bss) :: walkDefItemsDeep f tl
termination_by items => sizeOf items
decreasing_by
  all_goals (simp <;> omega)
end

/-! ## The decode pre-transform convert_entry (lib.rs) -/

mutual
/-- The function convert_entry of lib.rs.  On an object it unwraps the
values at keys t and c (a panic, modelled by none, when either is absent
or t is not a string), recursively transforms the content and emits the
single-key object; on an array it maps itself; every other value passes
through unchanged. -/
def convert_entry : Value → Option Value
  | .obj kvs =>
      match lookupKey "t" kvs with
      | some (.str t) => (convertAtC kvs).map (fun nc => Value.obj [(t, nc)])
      | _ => none
  | .arr xs => (convertList xs).map Value.arr
  | v => some v
termination_by v => sizeOf v
decreasing_by
  all_goals (simp <;> omega)
/-- Retrieval of the value at key c (failing, like the unwrap, when the
key is absent) combined with its recursive transform. -/
def convertAtC : List (String × Value) → Option Value
  | [] => none
  | (k2, v) :: tl => if k2 = "c" then convert_entry v else convertAtC tl
termination_by kvs => sizeOf kvs
decreasing_by
  all_goals (simp <;> omega)
/-- Elementwise convert_entry over the items of a JSON array. -/
def convertList : List Value → Option (List Value)
  | [] => some []
  | x :: xs => do
      let y ← convert_entry x
      let ys ← convertList xs
      some (y :: ys)
termination_by xs => sizeOf xs
decreasing_by
  all_goals (simp <;> omega)
end

/-- Agreement of convertAtC with the unwrap-then-convert reading: when
the key c is absent the retrieval fails. -/
theorem convertAtC_eq_none : ∀ {kvs : List (String × Value)},
    lookupKey "c" kvs = none → convertAtC kvs = none := by
  intro kvs
  induction kvs with
  | nil => intro h; simp [convertAtC]
  | cons hd tl ih =>
    intro h
    obtain ⟨k2, v⟩ := hd
    simp only [lookupKey] at h
    simp only [convertAtC]
    split at h
    · simp_all
    · simp_all

/-- Agreement of convertAtC with the unwrap-then-convert reading: when
the key c holds cv, the retrieval is the transform of cv. -/
theorem convertAtC_eq : ∀ {kvs : List (String × Value)} {cv : Value},
    lookupKey "c" kvs = some cv → convertAtC kvs = convert_entry cv := by
  intro kvs
  induction kvs with
  | nil => intro cv h; simp [lookupKey] at h
  | cons hd tl ih =>
    intro cv h
    obtain ⟨k2, v⟩ := hd
    simp only [lookupKey] at h
    simp only [convertAtC]
    split at h
    · simp_all
    · simp_all

mutual
/-- Checker for the absence of JSON objects anywhere inside a value,
used to state on which values the pre-transform acts as the identity. -/
def objFree : Value → Bool
  | .obj _ => false
  | .arr xs => objFreeList xs
  | _ => true
termination_by v => sizeOf v
decreasing_by
  all_goals (simp <;> omega)

/-- Elementwise objFree. -/
def objFreeList : List Value → Bool
  | [] => true
  | x :: xs => objFree x && objFreeList xs
termination_by xs => sizeOf xs
decreasing_by
  all_goals (simp <;> omega)
end

/-! ## The encode direction

The serialize_enum macro of types.rs gives ListNumberStyle,
ListNumberDelim, Alignment, QuoteType, MathType and Inline a custom
Serialize impl: a unit variant becomes the single-key object with an
empty-array payload, a newtype variant the single-key object with the
bare encoded field, and a tuple variant the single-key object with the
array of encoded fields.  Block, MetaValue, CitationMode, Citation and
Meta use the derived Serialize, whose output is pinned by the tests of
types.rs: unit variants become bare strings, newtype variants the
single-key object with the bare payload, tuple variants the single-key
object with the field array, and structs an object of renamed fields in
declaration order. -/

/-- Encoding of ListNumberStyle: unit variants of serialize_enum. -/
def encodeListNumberStyle : ListNumberStyle → Value
  | .DefaultStyle => .obj [("DefaultStyle", .arr [])]
  | .Example => .obj [("Example", .arr [])]
  | .Decimal => .obj [("Decimal", .arr [])]
  | .LowerRoman => .obj [("LowerRoman", .arr [])]
  | .UpperRoman => .obj [("UpperRoman", .arr [])]
  | .LowerAlpha => .obj [("LowerAlpha", .arr [])]
  | .UpperAlpha => .obj [("UpperAlpha", .arr [])]

/-- Encoding of ListNumberDelim: unit variants of serialize_enum. -/
def encodeListNumberDelim : ListNumberDelim → Value
  | .DefaultDelim => .obj [("DefaultDelim", .arr [])]
  | .Period => .obj [("Period", .arr [])]
  | .OneParen => .obj [("OneParen", .arr [])]
  | .TwoParens => .obj [("TwoParens", .arr [])]

/-- Encoding of Alignment: unit variants of serialize_enum. -/
def encodeAlignment : Alignment → Value
  | .AlignLeft => .obj [("AlignLeft", .arr [])]
  | .AlignRight => .obj [("AlignRight", .arr [])]
  | .AlignCenter => .obj [("AlignCenter", .arr [])]
  | .AlignDefault => .obj [("AlignDefault", .arr [])]

/-- Encoding of QuoteType: unit variants of serialize_enum. -/
def encodeQuoteType : QuoteType → Value
  | .SingleQuote => .obj [("SingleQuote", .arr [])]
  | .DoubleQuote => .obj [("DoubleQuote", .arr [])]

/-- Encoding of MathType: unit variants of serialize_enum. -/
def encodeMathType : MathType → Value
  | .DisplayMath => .obj [("DisplayMath", .arr [])]
  | .InlineMath => .obj [("InlineMath", .arr [])]

/-- Encoding of CitationMode: derived Serialize of an all-unit enum,
bare strings (pinned by the serialize_citation_mode test). -/
def encodeCitationMode : CitationMode → Value
  | .AuthorInText => .str "AuthorInText"
  | .SuppressAuthor => .str "SuppressAuthor"
  | .NormalCitation => .str "NormalCitation"

/-- Encoding of a Vec of String. -/
def encodeStrList (xs : List String) : List Value := xs.map Value.str

/-- Encoding of a Vec of (String, String): each pair becomes a
two-element array. -/
def encodePairList (ps : List (String × String)) : List Value :=
  ps.map (fun p => .arr [.str p.1, .str p.2])

/-- Encoding of an Attr triple as a three-element array. -/
def encodeAttr (a : Attr) : Value :=
  .arr [.str a.1, .arr (encodeStrList a.2.1), .arr (encodePairList a.2.2)]

/-- Encoding of a Target pair as a two-element array. -/
def encodeTarget (t : Target) : Value := .arr [.str t.1, .str t.2]

/-- Encoding of a ListAttributes triple as a three-element array. -/
def encodeListAttributes (la : ListAttributes) : Value :=
  .arr [.u64 la.1, encodeListNumberStyle la.2.1, encodeListNumberDelim la.2.2]

mutual
/-- Encoding of an Inline via the serialize_enum Serialize impl of
types.rs: Space, SoftBreak and LineBreak are declared in the units group
and therefore encode as single-key objects with an empty array payload,
never as bare strings. -/
def encodeInline : Inline → Value
  | .Str s => .obj [("Str", .str s)]
  | .Emph v => .obj [("Emph", .arr (encodeInlineList v))]
  | .Strong v => .obj [("Strong", .arr (encodeInlineList v))]
  | .Strikeout v => .obj [("Strikeout", .arr (encodeInlineList v))]
  | .Superscript v => .obj [("Superscript", .arr (encodeInlineList v))]
  | .Subscript v => .obj [("Subscript", .arr (encodeInlineList v))]
  | .SmallCaps v => .obj [("SmallCaps", .arr (encodeInlineList v))]
  | .Quoted q v => .obj [("Quoted", .arr [encodeQuoteType q, .arr (encodeInlineList v)])]
  | .Cite c v => .obj [("Cite", .arr [.arr (encodeCitationList c), .arr (encodeInlineList v)])]
  | .Code a s => .obj [("Code", .arr [encodeAttr a, .str s])]
  | .Space => .obj [("Space", .arr [])]
  | .SoftBreak => .obj [("SoftBreak", .arr [])]
  | .LineBreak => .obj [("LineBreak", .arr [])]
  | .Math t s => .obj [("Math", .arr [encodeMathType t, .str s])]
  | .RawInline fm s => .obj [("RawInline", .arr [.str fm, .str s])]
  | .Link a v t => .obj [("Link", .arr [encodeAttr a, .arr (encodeInlineList v), encodeTarget t])]
  | .Image a v t => .obj [("Image", .arr [encodeAttr a, .arr (encodeInlineList v), encodeTarget t])]
  | .Span a v => .obj [("Span", .arr [encodeAttr a, .arr (encodeInlineList v)])]
termination_by i => sizeOf i
decreasing_by
  all_goals (simp <;> omega)
/-- Elementwise encoding of a Vec of Inline. -/
def encodeInlineList : List Inline → List Value
  | [] => []
  | i :: is2 => encodeInline i :: encodeInlineList is2
termination_by is2 => sizeOf is2
decreasing_by
  all_goals (simp <;> omega)
/-- Encoding of a Citation: derived Serialize of the struct, an object
whose keys are the serde renames of types.rs in declaration order; the
mode field is keyed by the all-lowercase name. -/
def encodeCitation : Citation → Value
  | .mk cid pre suf mode num hash =>
      .obj [("citationId", .str cid),
            ("citationPrefix", .arr (encodeInlineList pre)),
            ("citationSuffix", .arr (encodeInlineList suf)),
            ("citationmode", encodeCitationMode mode),
            ("citationNoteNum", .u64 num),
            ("citationHash", .u64 hash)]
termination_by c => sizeOf c
decreasing_by
  all_goals (simp <;> omega)
/-- Elementwise encoding of a Vec of Citation. -/
def encodeCitationList : List Citation → List Value
  | [] => []
  | c :: cs => encodeCitation c :: encodeCitationList cs
termination_by cs => sizeOf cs
decreasing_by
  all_goals (simp <;> omega)
end

mutual
/-- Encoding of a Block: derived Serialize, pinned by the
serialize_block test of types.rs; HorizontalRule and Null are unit
variants and encode as bare strings. -/
def encodeBlock : Block → Value
  | .Plain is2 => .obj [("Plain", .arr (encodeInlineList is2))]
  | .Para is2 => .obj [("Para", .arr (encodeInlineList is2))]
  | .CodeBlock a s => .obj [("CodeBlock", .arr [encodeAttr a, .str s])]
  | .RawBlock fm s => .obj [("RawBlock", .arr [.str fm, .str s])]
  | .BlockQuote bs => .obj [("BlockQuote", .arr (encodeBlockList bs))]
  | .OrderedList la bss =>
      .obj [("OrderedList", .arr [encodeListAttributes la, .arr (encodeBlockListList bss)])]
  | .BulletList bss => .obj [("BulletList", .arr (encodeBlockListList bss))]
  | .DefinitionList items => .obj [("DefinitionList", .arr (encodeDefItems items))]
  | .Header n a is2 =>
      .obj [("Header", .arr [.u64 n, encodeAttr a, .arr (encodeInlineList is2)])]
  | .HorizontalRule => .str "HorizontalRule"
  | .Table capt als ws hs rs =>
      .obj [("Table", .arr [.arr (encodeInlineList capt), .arr (als.map encodeAlignment),
                            .arr (ws.map Value.f64), .arr (encodeBlockListList hs),
                            .arr (encodeBlockListListList rs)])]
  | .Div a bs => .obj [("Div", .arr [encodeAttr a, .arr (encodeBlockList bs)])]
  | .Null => .str "Null"
termination_by b => sizeOf b
decreasing_by
  all_goals (simp <;> omega)
/-- Elementwise encoding of a Vec of Block. -/
def encodeBlockList : List Block → List Value
  | [] => []
  | b :: bs => encodeBlock b :: encodeBlockList bs
termination_by bs => sizeOf bs
decreasing_by
  all_goals (simp <;> omega)
/-- Elementwise encoding of a Vec of Vec of Block. -/
def encodeBlockListList : List (List Block) → List Value
  | [] => []
  | bs :: bss => Value.arr (encodeBlockList bs) :: encodeBlockListList bss
termination_by bss => sizeOf bss
decreasing_by
  all_goals (simp <;> omega)
/-- Elementwise encoding of table rows. -/
def encodeBlockListListList : List (List (List Block)) → List Value
  | [] => []
  | bss :: bsss => Value.arr (encodeBlockListList bss) :: encodeBlockListListList bsss
termination_by bsss => sizeOf bsss
decreasing_by
  all_goals (simp <;> omega)
/-- Elementwise encoding of the DefinitionList payload; each pair is a
two-element array. -/
def encodeDefItems : List (List Inline × List (List Block)) → List Value
  | [] => []
  | (is2, bss) :: tl =>
      Value.arr [.arr (encodeInlineList is2), .arr (encodeBlockListList bss)] :: encodeDefItems tl
termination_by items => sizeOf items
decreasing_by
  all_goals (simp <;> omega)
end

mutual
/-- Encoding of a MetaValue: derived Serialize, pinned by the
serialize_meta_value test of types.rs. -/
def encodeMetaValue : MetaValue → Value
  | .MetaMap m => .obj [("MetaMap", .obj (encodeMetaEntries m))]
  | .MetaList l => .obj [("MetaList", .arr (encodeMetaValueList l))]
  | .MetaBool b => .obj [("MetaBool", .bool b)]
  | .MetaString s => .obj [("MetaString", .str s)]
  | .MetaInlines is2 => .obj [("MetaInlines", .arr (encodeInlineList is2))]
  | .MetaBlocks bs => .obj [("MetaBlocks", .arr (encodeBlockList bs))]
termination_by m => sizeOf m
decreasing_by
  all_goals (simp <;> omega)
/-- Elementwise encoding of a Vec of MetaValue. -/
def encodeMetaValueList : List MetaValue → List Value
  | [] => []
  | m :: ms => encodeMetaValue m :: encodeMetaValueList ms
termination_by ms => sizeOf ms
decreasing_by
  all_goals (simp <;> omega)
/-- Encoding of the entries of a BTreeMap of MetaValue. -/
def encodeMetaEntries : List (String × MetaValue) → List (String × Value)
  | [] => []
  | (k, m) :: tl => (k, encodeMetaValue m) :: encodeMetaEntries tl
termination_by l => sizeOf l
decreasing_by
  all_goals (simp <;> omega)
end

/-- Encoding of the Meta struct: object with the renamed key unMeta. -/
def encodeMeta (m : Meta) : Value := .obj [("unMeta", .obj (encodeMetaEntries m.un_meta))]

/-! ## The decode direction

Every Deserialize impl of this library is generated by serde_macros from
the type declarations and their rename attributes; that generated code is
not part of the sources.  The decoders below are therefore modelled from
the specification (section 4.2): a single-key object is matched against
the declared variant names and its payload decoded against the declared
field types in order, failing on an unknown tag, an arity mismatch or a
leaf type mismatch; unit variants are recognized both as bare strings
(the compact form this library itself emits) and as single-key objects
with an empty-array payload (the shape the wire pre-transform produces,
as the specification requires for the enumerations). -/

/-- Modelled from the spec: the derived Deserialize impl for
ListNumberStyle (generated by serde_macros, absent from src). -/
def decodeListNumberStyle : Value → Option ListNumberStyle
  | .obj [("DefaultStyle", .arr [])] => some .DefaultStyle
  | .obj [("Example", .arr [])] => some .Example
  | .obj [("Decimal", .arr [])] => some .Decimal
  | .obj [("LowerRoman", .arr [])] => some .LowerRoman
  | .obj [("UpperRoman", .arr [])] => some .UpperRoman
  | .obj [("LowerAlpha", .arr [])] => some .LowerAlpha
  | .obj [("UpperAlpha", .arr [])] => some .UpperAlpha
  | _ => none

/-- Modelled from the spec: the derived Deserialize impl for
ListNumberDelim (generated by serde_macros, absent from src). -/
def decodeListNumberDelim : Value → Option ListNumberDelim
  | .obj [("DefaultDelim", .arr [])] => some .DefaultDelim
  | .obj [("Period", .arr [])] => some .Period
  | .obj [("OneParen", .arr [])] => some .OneParen
  | .obj [("TwoParens", .arr [])] => some .TwoParens
  | _ => none

/-- Modelled from the spec: the derived Deserialize impl for Alignment
(generated by serde_macros, absent from src). -/
def decodeAlignment : Value → Option Alignment
  | .obj [("AlignLeft", .arr [])] => some .AlignLeft
  | .obj [("AlignRight", .arr [])] => some .AlignRight
  | .obj [("AlignCenter", .arr [])] => some .AlignCenter
  | .obj [("AlignDefault", .arr [])] => some .AlignDefault
  | _ => none

/-- Modelled from the spec: the derived Deserialize impl for QuoteType
(generated by serde_macros, absent from src). -/
def decodeQuoteType : Value → Option QuoteType
  | .obj [("SingleQuote", .arr [])] => some .SingleQuote
  | .obj [("DoubleQuote", .arr [])] => some .DoubleQuote
  | _ => none

/-- Modelled from the spec: the derived Deserialize impl for MathType
(generated by serde_macros, absent from src). -/
def decodeMathType : Value → Option MathType
  | .obj [("DisplayMath", .arr [])] => some .DisplayMath
  | .obj [("InlineMath", .arr [])] => some .InlineMath
  | _ => none

/-- Modelled from the spec: the derived Deserialize impl for CitationMode
(generated by serde_macros, absent from src); both the bare-string form
this library emits and the empty-payload object form of the wire are
recognized. -/
def decodeCitationMode : Value → Option CitationMode
  | .str "AuthorInText" => some .AuthorInText
  | .str "SuppressAuthor" => some .SuppressAuthor
  | .str "NormalCitation" => some .NormalCitation
  | .obj [("AuthorInText", .arr [])] => some .AuthorInText
  | .obj [("SuppressAuthor", .arr [])] => some .SuppressAuthor
  | .obj [("NormalCitation", .arr [])] => some .NormalCitation
  | _ => none

/-- Modelled from the spec: decoding of a JSON array of strings (the
Deserialize impl for Vec of String). -/
def decodeStrArr : List Value → Option (List String)
  | [] => some []
  | .str s :: tl => (decodeStrArr tl).map (fun xs => s :: xs)
  | _ => none

/-- Modelled from the spec: decoding of a JSON array of two-element
string arrays (the Deserialize impl for Vec of (String, String)). -/
def decodePairArr : List Value → Option (List (String × String))
  | [] => some []
  | .arr [.str a, .str b] :: tl => (decodePairArr tl).map (fun xs => (a, b) :: xs)
  | _ => none

/-- Modelled from the spec: decoding of an Attr triple from a
three-element array. -/
def decodeAttr : Value → Option Attr
  | .arr [.str i, .arr cs, .arr ks] => do
      let cls ← decodeStrArr cs
      let kvs ← decodePairArr ks
      some (i, cls, kvs)
  | _ => none

/-- Modelled from the spec: decoding of a Target pair from a two-element
array of strings. -/
def decodeTarget : Value → Option Target
  | .arr [.str u, .str ti] => some (u, ti)
  | _ => none

/-- Modelled from the spec: decoding of a ListAttributes triple from a
three-element array. -/
def decodeListAttributes : Value → Option ListAttributes
  | .arr [.u64 n, sv, dv] => do
      let st ← decodeListNumberStyle sv
      let d ← decodeListNumberDelim dv
      some (n, st, d)
  | _ => none

/-- Modelled from the spec: decoding of a JSON array of Alignment. -/
def decodeAlignArr : List Value → Option (List Alignment)
  | [] => some []
  | x :: tl => do
      let a ← decodeAlignment x
      let rest ← decodeAlignArr tl
      some (a :: rest)

/-- Modelled from the spec: decoding of a JSON array of f64 column
widths. -/
def decodeWidthArr : List Value → Option (List Rat)
  | [] => some []
  | .f64 q :: tl => (decodeWidthArr tl).map (fun xs => q :: xs)
  | _ => none

/-- Tag alphabet of the Inline variants, used to factor the decoder
dispatch. -/
inductive InlineTag where
  | TStr | TEmph | TStrong | TStrikeout | TSuperscript | TSubscript | TSmallCaps
  | TQuoted | TCite | TCode | TSpace | TSoftBreak | TLineBreak | TMath | TRawInline
  | TLink | TImage | TSpan

/-- Modelled from the spec: recognition of a JSON key as one of the
declared Inline variant names. -/
def inlineTagOf (k : String) : Option InlineTag :=
  if k = "Str" then some .TStr
  else if k = "Emph" then some .TEmph
  else if k = "Strong" then some .TStrong
  else if k = "Strikeout" then some .TStrikeout
  else if k = "Superscript" then some .TSuperscript
  else if k = "Subscript" then some .TSubscript
  else if k = "SmallCaps" then some .TSmallCaps
  else if k = "Quoted" then some .TQuoted
  else if k = "Cite" then some .TCite
  else if k = "Code" then some .TCode
  else if k = "Space" then some .TSpace
  else if k = "SoftBreak" then some .TSoftBreak
  else if k = "LineBreak" then some .TLineBreak
  else if k = "Math" then some .TMath
  else if k = "RawInline" then some .TRawInline
  else if k = "Link" then some .TLink
  else if k = "Image" then some .TImage
  else if k = "Span" then some .TSpan
  else none

mutual
/-- Modelled from the spec: the derived Deserialize impl for Inline
(generated by serde_macros, absent from src); a single-key object whose
key is a declared variant name, with the payload decoded against the
declared fields. -/
def decodeInline : Value → Option Inline
  | .obj [(k, p)] =>
      match inlineTagOf k with
      | some tag => decodeInlineTagged tag p
      | none => none
  | _ => none
termination_by v => sizeOf v
decreasing_by
  all_goals (simp <;> omega)
/-- Modelled from the spec: decoding of an Inline payload against the
declared fields of the recognized variant; a payload of the wrong shape
is a decode failure. -/
def decodeInlineTagged : InlineTag → Value → Option Inline
  | .TStr, .str s => some (.Str s)
  | .TEmph, .arr xs => (decodeInlineArr xs).map .Emph
  | .TStrong, .arr xs => (decodeInlineArr xs).map .Strong
  | .TStrikeout, .arr xs => (decodeInlineArr xs).map .Strikeout
  | .TSuperscript, .arr xs => (decodeInlineArr xs).map .Superscript
  | .TSubscript, .arr xs => (decodeInlineArr xs).map .Subscript
  | .TSmallCaps, .arr xs => (decodeInlineArr xs).map .SmallCaps
  | .TQuoted, .arr [qv, .arr xs] => do
      let q ← decodeQuoteType qv
      let v ← decodeInlineArr xs
      some (.Quoted q v)
  | .TCite, .arr [.arr cs, .arr xs] => do
      let c ← decodeCitationArr cs
      let v ← decodeInlineArr xs
      some (.Cite c v)
  | .TCode, .arr [av, .str s] => (decodeAttr av).map (fun a => .Code a s)
  | .TSpace, .arr [] => some .Space
  | .TSoftBreak, .arr [] => some .SoftBreak
  | .TLineBreak, .arr [] => some .LineBreak
  | .TMath, .arr [tv, .str s] => (decodeMathType tv).map (fun t => .Math t s)
  | .TRawInline, .arr [.str fm, .str s] => some (.RawInline fm s)
  | .TLink, .arr [av, .arr xs, tv] => do
      let a ← decodeAttr av
      let v ← decodeInlineArr xs
      let t ← decodeTarget tv
      some (.Link a v t)
  | .TImage, .arr [av, .arr xs, tv] => do
      let a ← decodeAttr av
      let v ← decodeInlineArr xs
      let t ← decodeTarget tv
      some (.Image a v t)
  | .TSpan, .arr [av, .arr xs] => do
      let a ← decodeAttr av
      let v ← decodeInlineArr xs
      some (.Span a v)
  | _, _ => none
termination_by _ p => sizeOf p
decreasing_by
  all_goals (simp <;> omega)
/-- Modelled from the spec: elementwise decoding of a JSON array of
Inline. -/
def decodeInlineArr : List Value → Option (List Inline)
  | [] => some []
  | x :: xs => do
      let i ← decodeInline x
      let is2 ← decodeInlineArr xs
      some (i :: is2)
termination_by xs => sizeOf xs
decreasing_by
  all_goals (simp <;> omega)
/-- Modelled from the spec: the derived Deserialize impl for the Citation
struct (generated by serde_macros, absent from src); an object with
exactly the six renamed field keys, the mode under the all-lowercase
key. -/
def decodeCitation : Value → Option Citation
  | .obj kvs =>
      if kvs.length = 6 then
        match lookupKey "citationId" kvs, h2 : lookupKey "citationPrefix" kvs,
              h3 : lookupKey "citationSuffix" kvs, lookupKey "citationmode" kvs,
              lookupKey "citationNoteNum" kvs, lookupKey "citationHash" kvs with
        | some (.str cid), some (.arr pres), some (.arr sufs), some mv,
            some (.u64 num), some (.u64 hash) => do
            let pre ← decodeInlineArr pres
            let suf ← decodeInlineArr sufs
            let mode ← decodeCitationMode mv
            some (.mk cid pre suf mode num hash)
        | _, _, _, _, _, _ => none
      else none
  | _ => none
termination_by v => sizeOf v
decreasing_by
  all_goals first
    | (simp <;> omega)
    | (have q1 := lookupKey_sizeOf h2; simp; simp at q1; omega)
    | (have q1 := lookupKey_sizeOf h3; simp; simp at q1; omega)
/-- Modelled from the spec: elementwise decoding of a JSON array of
Citation. -/
def decodeCitationArr : List Value → Option (List Citation)
  | [] => some []
  | x :: xs => do
      let c ← decodeCitation x
      let cs ← decodeCitationArr xs
      some (c :: cs)
termination_by xs => sizeOf xs
decreasing_by
  all_goals (simp <;> omega)
end

/-- Tag alphabet of the Block variants, used to factor the decoder
dispatch. -/
inductive BlockTag where
  | TPlain | TPara | TCodeBlock | TRawBlock | TBlockQuote | TOrderedList
  | TBulletList | TDefinitionList | THeader | THorizontalRule | TTable
  | TDiv | TNull

/-- Modelled from the spec: recognition of a JSON key as one of the
declared Block variant names. -/
def blockTagOf (k : String) : Option BlockTag :=
  if k = "Plain" then some .TPlain
  else if k = "Para" then some .TPara
  else if k = "CodeBlock" then some .TCodeBlock
  else if k = "RawBlock" then some .TRawBlock
  else if k = "BlockQuote" then some .TBlockQuote
  else if k = "OrderedList" then some .TOrderedList
  else if k = "BulletList" then some .TBulletList
  else if k = "DefinitionList" then some .TDefinitionList
  else if k = "Header" then some .THeader
  else if k = "HorizontalRule" then some .THorizontalRule
  else if k = "Table" then some .TTable
  else if k = "Div" then some .TDiv
  else if k = "Null" then some .TNull
  else none

mutual
/-- Modelled from the spec: the derived Deserialize impl for Block
(generated by serde_macros, absent from src); the unit variants
HorizontalRule and Null are recognized both as bare strings and as
single-key objects with an empty-array payload. -/
def decodeBlock : Value → Option Block
  | .str s =>
      if s = "HorizontalRule" then some .HorizontalRule
      else if s = "Null" then some .Null
      else none
  | .obj [(k, p)] =>
      match blockTagOf k with
      | some tag => decodeBlockTagged tag p
      | none => none
  | _ => none
termination_by v => sizeOf v
decreasing_by
  all_goals (simp <;> omega)
/-- Modelled from the spec: decoding of a Block payload against the
declared fields of the recognized variant. -/
def decodeBlockTagged : BlockTag → Value → Option Block
  | .TPlain, .arr xs => (decodeInlineArr xs).map .Plain
  | .TPara, .arr xs => (decodeInlineArr xs).map .Para
  | .TCodeBlock, .arr [av, .str s] => (decodeAttr av).map (fun a => .CodeBlock a s)
  | .TRawBlock, .arr [.str fm, .str s] => some (.RawBlock fm s)
  | .TBlockQuote, .arr xs => (decodeBlockArr xs).map .BlockQuote
  | .TOrderedList, .arr [lav, .arr xss] => do
      let la ← decodeListAttributes lav
      let bss ← decodeBlockArrArr xss
      some (.OrderedList la bss)
  | .TBulletList, .arr xss => (decodeBlockArrArr xss).map .BulletList
  | .TDefinitionList, .arr items => (decodeDefItemArr items).map .DefinitionList
  | .THeader, .arr [.u64 n, av, .arr xs] => do
      let a ← decodeAttr av
      let is2 ← decodeInlineArr xs
      some (.Header n a is2)
  | .THorizontalRule, .arr [] => some .HorizontalRule
  | .TTable, .arr [.arr capv, .arr alsv, .arr wsv, .arr hsv, .arr rsv] => do
      let capt ← decodeInlineArr capv
      let als ← decodeAlignArr alsv
      let ws ← decodeWidthArr wsv
      let hs ← decodeBlockArrArr hsv
      let rs ← decodeBlockArrArrArr rsv
      some (.Table capt als ws hs rs)
  | .TDiv, .arr [av, .arr bsv] => do
      let a ← decodeAttr av
      let bs ← decodeBlockArr bsv
      some (.Div a bs)
  | .TNull, .arr [] => some .Null
  | _, _ => none
termination_by _ p => sizeOf p
decreasing_by
  all_goals (simp <;> omega)
/-- Modelled from the spec: elementwise decoding of a JSON array of
Block. -/
def decodeBlockArr : List Value → Option (List Block)
  | [] => some []
  | x :: xs => do
      let b ← decodeBlock x
      let bs ← decodeBlockArr xs
      some (b :: bs)
termination_by xs => sizeOf xs
decreasing_by
  all_goals (simp <;> omega)
/-- Modelled from the spec: decoding of an array of arrays of Block. -/
def decodeBlockArrArr : List Value → Option (List (List Block))
  | [] => some []
  | .arr x :: xs => do
      let bs ← decodeBlockArr x
      let bss ← decodeBlockArrArr xs
      some (bs :: bss)
  | _ => none
termination_by xs => sizeOf xs
decreasing_by
  all_goals (simp <;> omega)
/-- Modelled from the spec: decoding of an array of table rows. -/
def decodeBlockArrArrArr : List Value → Option (List (List (List Block)))
  | [] => some []
  | .arr x :: xs => do
      let bss ← decodeBlockArrArr x
      let bsss ← decodeBlockArrArrArr xs
      some (bss :: bsss)
  | _ => none
termination_by xs => sizeOf xs
decreasing_by
  all_goals (simp <;> omega)
/-- Modelled from the spec: decoding of the DefinitionList payload, an
array of two-element arrays. -/
def decodeDefItemArr : List Value → Option (List (List Inline × List (List Block)))
  | [] => some []
  | .arr [.arr isv, .arr bssv] :: tl => do
      let is2 ← decodeInlineArr isv
      let bss ← decodeBlockArrArr bssv
      let rest ← decodeDefItemArr tl
      some ((is2, bss) :: rest)
  | _ => none
termination_by xs => sizeOf xs
decreasing_by
  all_goals (simp <;> omega)
end

/-- Tag alphabet of the MetaValue variants. -/
inductive MetaTag where
  | TMetaMap | TMetaList | TMetaBool | TMetaString | TMetaInlines | TMetaBlocks

/-- Modelled from the spec: recognition of a JSON key as one of the
declared MetaValue variant names. -/
def metaTagOf (k : String) : Option MetaTag :=
  if k = "MetaMap" then some .TMetaMap
  else if k = "MetaList" then some .TMetaList
  else if k = "MetaBool" then some .TMetaBool
  else if k = "MetaString" then some .TMetaString
  else if k = "MetaInlines" then some .TMetaInlines
  else if k = "MetaBlocks" then some .TMetaBlocks
  else none

mutual
/-- Modelled from the spec: the derived Deserialize impl for MetaValue
(generated by serde_macros, absent from src). -/
def decodeMetaValue : Value → Option MetaValue
  | .obj [(k, p)] =>
      match metaTagOf k with
      | some tag => decodeMetaValueTagged tag p
      | none => none
  | _ => none
termination_by v => sizeOf v
decreasing_by
  all_goals (simp <;> omega)
/-- Modelled from the spec: decoding of a MetaValue payload against the
declared fields of the recognized variant. -/
def decodeMetaValueTagged : MetaTag → Value → Option MetaValue
  | .TMetaMap, .obj kvs => (decodeMetaEntries kvs).map .MetaMap
  | .TMetaList, .arr xs => (decodeMetaValueArr xs).map .MetaList
  | .TMetaBool, .bool b => some (.MetaBool b)
  | .TMetaString, .str s => some (.MetaString s)
  | .TMetaInlines, .arr xs => (decodeInlineArr xs).map .MetaInlines
  | .TMetaBlocks, .arr xs => (decodeBlockArr xs).map .MetaBlocks
  | _, _ => none
termination_by _ p => sizeOf p
decreasing_by
  all_goals (simp <;> omega)
/-- Modelled from the spec: elementwise decoding of a JSON array of
MetaValue. -/
def decodeMetaValueArr : List Value → Option (List MetaValue)
  | [] => some []
  | x :: xs => do
      let m ← decodeMetaValue x
      let ms ← decodeMetaValueArr xs
      some (m :: ms)
termination_by xs => sizeOf xs
decreasing_by
  all_goals (simp <;> omega)
/-- Modelled from the spec: decoding of the entries of a MetaValue
mapping. -/
def decodeMetaEntries : List (String × Value) → Option (List (String × MetaValue))
  | [] => some []
  | (k, v) :: tl => do
      let m ← decodeMetaValue v
      let rest ← decodeMetaEntries tl
      some ((k, m) :: rest)
termination_by kvs => sizeOf kvs
decreasing_by
  all_goals (simp <;> omega)
end

/-- Modelled from the spec: the derived Deserialize impl for the Meta
struct (generated by serde_macros, absent from src): an object with the
single renamed key unMeta holding the mapping. -/
def decodeMeta : Value → Option Meta
  | .obj [("unMeta", .obj kvs)] => (decodeMetaEntries kvs).map Meta.mk
  | _ => none

/-- Modelled from the spec: the Deserialize impl for Vec of Block applied
to a whole JSON value, as serde_json::from_value does in Pandoc::new. -/
def decodeBlocksValue : Value → Option (List Block)
  | .arr xs => decodeBlockArr xs
  | _ => none

/-! ## The conversion pipeline (lib.rs) -/

/-- The constructor Pandoc::new of lib.rs: the metadata value is decoded
directly by serde_json::from_value (its unwrap is a panic, modelled by
none), while the blocks value is first pre-transformed by convert_entry
and only then decoded. -/
def pandocNew (meta blocks : Value) : Option Pandoc :=
  Option.bind (decodeMeta meta) (fun m =>
    Option.bind (convert_entry blocks) (fun cb =>
      Option.bind (decodeBlocksValue cb) (fun bs => some ⟨m, bs⟩)))

/-- Claim-side pipeline: what the constructor would be if the t/c
pre-transform were applied to the entire payload, the metadata value
included, before structural decoding. -/
def pandocNewClaim (meta blocks : Value) : Option Pandoc :=
  Option.bind (convert_entry meta) (fun cm =>
    Option.bind (decodeMeta cm) (fun m =>
      Option.bind (convert_entry blocks) (fun cb =>
        Option.bind (decodeBlocksValue cb) (fun bs => some ⟨m, bs⟩))))

/-- Outcome of a call of the deserialize function of lib.rs after the
external tool and the JSON parser have produced a Value: a document, a
returned error string, or a panic inside Pandoc::new. -/
inductive Outcome where
  | ok (p : Pandoc)
  | err (e : String)
  | panicked

/-- The deserialize function of lib.rs from the parsed JSON value on: a
non-array yields the error Not an array, an array whose length is not 2
yields the error Not valid Pandoc, and a two-element array is handed to
Pandoc::new, whose unwraps panic on a decode failure. -/
def deserialize : Value → Outcome
  | .arr [m, b] =>
      match pandocNew m b with
      | some p => .ok p
      | none => .panicked
  | .arr _ => .err "Not valid Pandoc"
  | _ => .err "Not an array"

/-- Shape predicate of the claim: the parsed top-level wire value is not
a JSON array, or is an array whose length differs from 2. -/
def claimShapeBad : Value → Bool
  | .arr xs => xs.length != 2
  | _ => true

/-! ## Round trip of the codec -/

theorem rt_listNumberStyle (x : ListNumberStyle) :
    decodeListNumberStyle (encodeListNumberStyle x) = some x := by
  cases x <;> rfl

theorem rt_listNumberDelim (x : ListNumberDelim) :
    decodeListNumberDelim (encodeListNumberDelim x) = some x := by
  cases x <;> rfl

theorem rt_alignment (x : Alignment) : decodeAlignment (encodeAlignment x) = some x := by
  cases x <;> rfl

theorem rt_quoteType (x : QuoteType) : decodeQuoteType (encodeQuoteType x) = some x := by
  cases x <;> rfl

theorem rt_mathType (x : MathType) : decodeMathType (encodeMathType x) = some x := by
  cases x <;> rfl

theorem rt_citationMode (x : CitationMode) :
    decodeCitationMode (encodeCitationMode x) = some x := by
  cases x <;> rfl

theorem rt_strArr (xs : List String) : decodeStrArr (encodeStrList xs) = some xs := by
  induction xs with
  | nil => rfl
  | cons x tl ih => simp [encodeStrList, decodeStrArr] at ih ⊢; simp [ih]

theorem rt_pairArr (ps : List (String × String)) :
    decodePairArr (encodePairList ps) = some ps := by
  induction ps with
  | nil => rfl
  | cons p tl ih =>
    obtain ⟨a, b⟩ := p
    simp [encodePairList, decodePairArr] at ih ⊢; simp [ih]

theorem rt_attr (a : Attr) : decodeAttr (encodeAttr a) = some a := by
  obtain ⟨i, cls, kvs⟩ := a
  simp [encodeAttr, decodeAttr, rt_strArr, rt_pairArr]

theorem rt_target (t : Target) : decodeTarget (encodeTarget t) = some t := by
  obtain ⟨u, ti⟩ := t
  simp [encodeTarget, decodeTarget]

theorem rt_listAttributes (la : ListAttributes) :
    decodeListAttributes (encodeListAttributes la) = some la := by
  obtain ⟨n, st, d⟩ := la
  simp [encodeListAttributes, decodeListAttributes, rt_listNumberStyle, rt_listNumberDelim]

theorem rt_alignArr (als : List Alignment) :
    decodeAlignArr (als.map encodeAlignment) = some als := by
  induction als with
  | nil => rfl
  | cons a tl ih => simp [decodeAlignArr, rt_alignment, ih]

theorem rt_widthArr (ws : List Rat) : decodeWidthArr (ws.map Value.f64) = some ws := by
  induction ws with
  | nil => rfl
  | cons w tl ih => simp [decodeWidthArr] at ih ⊢; simp [ih]

set_option maxHeartbeats 1000000 in
mutual
theorem rt_inline : ∀ (i : Inline), decodeInline (encodeInline i) = some i
  | .Str s => by simp [encodeInline, decodeInline, inlineTagOf, decodeInlineTagged]
  | .Emph v => by
      simp [encodeInline, decodeInline, inlineTagOf, decodeInlineTagged, rt_inlineArr v]
  | .Strong v => by
      simp [encodeInline, decodeInline, inlineTagOf, decodeInlineTagged, rt_inlineArr v]
  | .Strikeout v => by
      simp [encodeInline, decodeInline, inlineTagOf, decodeInlineTagged, rt_inlineArr v]
  | .Superscript v => by
      simp [encodeInline, decodeInline, inlineTagOf, decodeInlineTagged, rt_inlineArr v]
  | .Subscript v => by
      simp [encodeInline, decodeInline, inlineTagOf, decodeInlineTagged, rt_inlineArr v]
  | .SmallCaps v => by
      simp [encodeInline, decodeInline, inlineTagOf, decodeInlineTagged, rt_inlineArr v]
  | .Quoted q v => by
      simp [encodeInline, decodeInline, inlineTagOf, decodeInlineTagged, rt_inlineArr v,
            rt_quoteType]
  | .Cite c v => by
      simp [encodeInline, decodeInline, inlineTagOf, decodeInlineTagged,
            rt_inlineArr v, rt_citationArr c]
  | .Code a s => by simp [encodeInline, decodeInline, inlineTagOf, decodeInlineTagged, rt_attr]
  | .Space => by simp [encodeInline, decodeInline, inlineTagOf, decodeInlineTagged]
  | .SoftBreak => by simp [encodeInline, decodeInline, inlineTagOf, decodeInlineTagged]
  | .LineBreak => by simp [encodeInline, decodeInline, inlineTagOf, decodeInlineTagged]
  | .Math t s => by simp [encodeInline, decodeInline, inlineTagOf, decodeInlineTagged, rt_mathType]
  | .RawInline fm s => by simp [encodeInline, decodeInline, inlineTagOf, decodeInlineTagged]
  | .Link a v t => by
      simp [encodeInline, decodeInline, inlineTagOf, decodeInlineTagged, rt_attr,
            rt_inlineArr v, rt_target]
  | .Image a v t => by
      simp [encodeInline, decodeInline, inlineTagOf, decodeInlineTagged, rt_attr,
            rt_inlineArr v, rt_target]
  | .Span a v => by
      simp [encodeInline, decodeInline, inlineTagOf, decodeInlineTagged, rt_attr,
            rt_inlineArr v]
termination_by i => sizeOf i
decreasing_by
  all_goals (simp <;> omega)
theorem rt_inlineArr : ∀ (v : List Inline), decodeInlineArr (encodeInlineList v) = some v
  | [] => by simp [encodeInlineList, decodeInlineArr]
  | i :: is2 => by
      simp [encodeInlineList, decodeInlineArr, rt_inline i, rt_inlineArr is2]
termination_by v => sizeOf v
decreasing_by
  all_goals (simp <;> omega)
theorem rt_citation : ∀ (c : Citation), decodeCitation (encodeCitation c) = some c
  | .mk cid pre suf mode num hash => by
      simp [encodeCitation, decodeCitation, lookupKey,
            rt_inlineArr pre, rt_inlineArr suf, rt_citationMode]
termination_by c => sizeOf c
decreasing_by
  all_goals (simp <;> omega)
theorem rt_citationArr : ∀ (cs : List Citation), decodeCitationArr (encodeCitationList cs) = some cs
  | [] => by simp [encodeCitationList, decodeCitationArr]
  | c :: cs => by
      simp [encodeCitationList, decodeCitationArr, rt_citation c, rt_citationArr cs]
termination_by cs => sizeOf cs
decreasing_by
  all_goals (simp <;> omega)
end

set_option maxHeartbeats 1000000 in
mutual
theorem rt_block : ∀ (b : Block), decodeBlock (encodeBlock b) = some b
  | .Plain is2 => by
      simp [encodeBlock, decodeBlock, blockTagOf, decodeBlockTagged, rt_inlineArr is2]
  | .Para is2 => by
      simp [encodeBlock, decodeBlock, blockTagOf, decodeBlockTagged, rt_inlineArr is2]
  | .CodeBlock a s => by
      simp [encodeBlock, decodeBlock, blockTagOf, decodeBlockTagged, rt_attr]
  | .RawBlock fm s => by
      simp [encodeBlock, decodeBlock, blockTagOf, decodeBlockTagged]
  | .BlockQuote bs => by
      simp [encodeBlock, decodeBlock, blockTagOf, decodeBlockTagged, rt_blockArr bs]
  | .OrderedList la bss => by
      simp [encodeBlock, decodeBlock, blockTagOf, decodeBlockTagged, rt_listAttributes,
            rt_blockArrArr bss]
  | .BulletList bss => by
      simp [encodeBlock, decodeBlock, blockTagOf, decodeBlockTagged, rt_blockArrArr bss]
  | .DefinitionList items => by
      simp [encodeBlock, decodeBlock, blockTagOf, decodeBlockTagged, rt_defItemArr items]
  | .Header n a is2 => by
      simp [encodeBlock, decodeBlock, blockTagOf, decodeBlockTagged, rt_attr, rt_inlineArr is2]
  | .HorizontalRule => by simp [encodeBlock, decodeBlock]
  | .Table capt als ws hs rs => by
      simp [encodeBlock, decodeBlock, blockTagOf, decodeBlockTagged, rt_inlineArr capt,
            rt_alignArr, rt_widthArr, rt_blockArrArr hs, rt_blockArrArrArr rs]
  | .Div a bs => by
      simp [encodeBlock, decodeBlock, blockTagOf, decodeBlockTagged, rt_attr, rt_blockArr bs]
  | .Null => by simp [encodeBlock, decodeBlock]
termination_by b => sizeOf b
decreasing_by
  all_goals (simp <;> omega)
theorem rt_blockArr : ∀ (bs : List Block), decodeBlockArr (encodeBlockList bs) = some bs
  | [] => by simp [encodeBlockList, decodeBlockArr]
  | b :: bs => by
      simp [encodeBlockList, decodeBlockArr, rt_block b, rt_blockArr bs]
termination_by bs => sizeOf bs
decreasing_by
  all_goals (simp <;> omega)
theorem rt_blockArrArr : ∀ (bss : List (List Block)),
    decodeBlockArrArr (encodeBlockListList bss) = some bss
  | [] => by simp [encodeBlockListList, decodeBlockArrArr]
  | bs :: bss => by
      simp [encodeBlockListList, decodeBlockArrArr, rt_blockArr bs, rt_blockArrArr bss]
termination_by bss => sizeOf bss
decreasing_by
  all_goals (simp <;> omega)
theorem rt_blockArrArrArr : ∀ (bsss : List (List (List Block))),
    decodeBlockArrArrArr (encodeBlockListListList bsss) = some bsss
  | [] => by simp [encodeBlockListListList, decodeBlockArrArrArr]
  | bss :: bsss => by
      simp [encodeBlockListListList, decodeBlockArrArrArr, rt_blockArrArr bss,
            rt_blockArrArrArr bsss]
termination_by bsss => sizeOf bsss
decreasing_by
  all_goals (simp <;> omega)
theorem rt_defItemArr : ∀ (items : List (List Inline × List (List Block))),
    decodeDefItemArr (encodeDefItems items) = some items
  | [] => by simp [encodeDefItems, decodeDefItemArr]
  | (is2, bss) :: tl => by
      simp [encodeDefItems, decodeDefItemArr, rt_inlineArr is2, rt_blockArrArr bss,
            rt_defItemArr tl]
termination_by items => sizeOf items
decreasing_by
  all_goals (simp <;> omega)
end

set_option maxHeartbeats 1000000 in
mutual
theorem rt_metaValue : ∀ (m : MetaValue), decodeMetaValue (encodeMetaValue m) = some m
  | .MetaMap m => by
      simp [encodeMetaValue, decodeMetaValue, metaTagOf, decodeMetaValueTagged,
            rt_metaEntries m]
  | .MetaList l => by
      simp [encodeMetaValue, decodeMetaValue, metaTagOf, decodeMetaValueTagged,
            rt_metaValueArr l]
  | .MetaBool b => by
      simp [encodeMetaValue, decodeMetaValue, metaTagOf, decodeMetaValueTagged]
  | .MetaString s => by
      simp [encodeMetaValue, decodeMetaValue, metaTagOf, decodeMetaValueTagged]
  | .MetaInlines is2 => by
      simp [encodeMetaValue, decodeMetaValue, metaTagOf, decodeMetaValueTagged,
            rt_inlineArr is2]
  | .MetaBlocks bs => by
      simp [encodeMetaValue, decodeMetaValue, metaTagOf, decodeMetaValueTagged,
            rt_blockArr bs]
termination_by m => sizeOf m
decreasing_by
  all_goals (simp <;> omega)
theorem rt_metaValueArr : ∀ (ms : List MetaValue),
    decodeMetaValueArr (encodeMetaValueList ms) = some ms
  | [] => by simp [encodeMetaValueList, decodeMetaValueArr]
  | m :: ms => by
      simp [encodeMetaValueList, decodeMetaValueArr, rt_metaValue m, rt_metaValueArr ms]
termination_by ms => sizeOf ms
decreasing_by
  all_goals (simp <;> omega)
theorem rt_metaEntries : ∀ (l : List (String × MetaValue)),
    decodeMetaEntries (encodeMetaEntries l) = some l
  | [] => by simp [encodeMetaEntries, decodeMetaEntries]
  | (k, m) :: tl => by
      simp [encodeMetaEntries, decodeMetaEntries, rt_metaValue m, rt_metaEntries tl]
termination_by l => sizeOf l
decreasing_by
  all_goals (simp <;> omega)
end

theorem rt_meta (m : Meta) : decodeMeta (encodeMeta m) = some m := by
  obtain ⟨entries⟩ := m
  simp [encodeMeta, decodeMeta, rt_metaEntries]

/-! ## Helper lemmas about the walker -/

theorem walkInlines_map (f : Inline → Inline) (is2 : List Inline) :
    walkInlines f is2 = is2.map f := by
  simp [walkInlines, walkInline]

theorem walkBlocks_map (f : Inline → Inline) : ∀ bs, walkBlocks f bs = bs.map (walkBlock f)
  | [] => by simp [walkBlocks]
  | b :: bs => by simp [walkBlocks, walkBlocks_map f bs]

theorem walkBlockss_map (f : Inline → Inline) :
    ∀ bss, walkBlockss f bss = bss.map (fun bs => bs.map (walkBlock f))
  | [] => by simp [walkBlockss]
  | bs :: bss => by simp [walkBlockss, walkBlocks_map, walkBlockss_map f bss]

theorem walkBlocksss_map (f : Inline → Inline) :
    ∀ bsss, walkBlocksss f bsss
      = bsss.map (fun bss => bss.map (fun bs => bs.map (walkBlock f)))
  | [] => by simp [walkBlocksss]
  | bss :: bsss => by simp [walkBlocksss, walkBlockss_map, walkBlocksss_map f bsss]

theorem walkDefItems_map (f : Inline → Inline) :
    ∀ items, walkDefItems f items
      = items.map (fun p => (p.1.map f, p.2.map (fun bs => bs.map (walkBlock f))))
  | [] => by simp [walkDefItems]
  | (is2, bss) :: tl => by
      simp [walkDefItems, walkInlines_map, walkBlockss_map, walkDefItems_map f tl]

/-- Example wire node for a Header in the external t/c convention, as in
the test suite of lib.rs. -/
def wireHeader : Value :=
  .obj [("t", .str "Header"),
        ("c", .arr [.u64 1,
                    .arr [.str "test", .arr [], .arr []],
                    .arr [.obj [("t", .str "Str"), ("c", .str "Test")]]])]

/-- Example object keys of an encoded JSON object. -/
def objKeys : Value → List String
  | .obj kvs => kvs.map Prod.fst
  | _ => []

/-! ## The claims -/

/-- Claim C1: round-trip identity of the codec: decoding the compact
encoding of any constructible Block, Inline, MetaValue, Attr, Citation
or enumeration value yields the value back. -/
theorem C1_round_trip :
    (∀ b : Block, decodeBlock (encodeBlock b) = some b)
    ∧ (∀ i : Inline, decodeInline (encodeInline i) = some i)
    ∧ (∀ m : MetaValue, decodeMetaValue (encodeMetaValue m) = some m)
    ∧ (∀ a : Attr, decodeAttr (encodeAttr a) = some a)
    ∧ (∀ c : Citation, decodeCitation (encodeCitation c) = some c)
    ∧ (∀ x : Alignment, decodeAlignment (encodeAlignment x) = some x)
    ∧ (∀ x : MathType, decodeMathType (encodeMathType x) = some x)
    ∧ (∀ x : QuoteType, decodeQuoteType (encodeQuoteType x) = some x)
    ∧ (∀ x : ListNumberStyle, decodeListNumberStyle (encodeListNumberStyle x) = some x)
    ∧ (∀ x : ListNumberDelim, decodeListNumberDelim (encodeListNumberDelim x) = some x)
    ∧ (∀ x : CitationMode, decodeCitationMode (encodeCitationMode x) = some x)
    ∧ (∀ m : Meta, decodeMeta (encodeMeta m) = some m) :=
  ⟨rt_block, rt_inline, rt_metaValue, rt_attr, rt_citation, rt_alignment, rt_mathType,
   rt_quoteType, rt_listNumberStyle, rt_listNumberDelim, rt_citationMode, rt_meta⟩


/-- Claim C4, counterexample: on an object carrying t but no c the
pre-transform does not succeed with an empty-array payload; it panics
(unwrap of None). -/
theorem C4_counterexample :
    convert_entry (Value.obj [("t", Value.str "HorizontalRule")]) = none
    ∧ convert_entry (Value.obj [("t", Value.str "HorizontalRule")])
      ≠ some (Value.obj [("HorizontalRule", Value.arr [])]) := by
  constructor <;> simp [convert_entry, convertAtC, lookupKey]

/-- Claim C4 as amended: the pre-transform requires both keys: with c
absent it panics, and with a string t and a c whose transform succeeds it
emits the single-key object. -/
theorem C4_pretransform_requires_c :
    (∀ kvs : List (String × Value), lookupKey "c" kvs = none →
      convert_entry (Value.obj kvs) = none)
    ∧ (∀ (kvs : List (String × Value)) (t : String) (cv c2 : Value),
        lookupKey "t" kvs = some (Value.str t) → lookupKey "c" kvs = some cv →
        convert_entry cv = some c2 →
        convert_entry (Value.obj kvs) = some (Value.obj [(t, c2)])) := by
  constructor
  · intro kvs h
    have hc := convertAtC_eq_none h
    simp only [convert_entry]
    split <;> simp [hc]
  · intro kvs t cv c2 h1 h2 h3
    have hc := convertAtC_eq h2
    simp [convert_entry, h1, hc, h3]

/-- Claim C4, witness. -/
theorem C4_witness :
    lookupKey "c" [("x", Value.null), ("t", Value.str "Space")] = none
    ∧ convert_entry (Value.obj [("x", Value.null), ("t", Value.str "Space")]) = none
    ∧ convert_entry (Value.obj [("t", Value.str "Str"), ("c", Value.str "Test")])
      = some (Value.obj [("Str", Value.str "Test")]) :=
  ⟨by simp [lookupKey],
   C4_pretransform_requires_c.1 _ (by simp [lookupKey]),
   C4_pretransform_requires_c.2 [("t", Value.str "Str"), ("c", Value.str "Test")]
     "Str" (Value.str "Test") (Value.str "Test")
     (by simp [lookupKey]) (by simp [lookupKey])
     (by simp [convert_entry, convertAtC, lookupKey])⟩

/-- Claim C5, counterexample: an object containing neither t nor c is not
passed through unchanged; the pre-transform panics on it. -/
theorem C5_counterexample :
    convert_entry (Value.obj []) ≠ some (Value.obj []) := by
  simp [convert_entry, convertAtC, lookupKey]

mutual
theorem convert_entry_objFree : ∀ (v : Value), objFree v = true → convert_entry v = some v
  | .null, _ => by simp [convert_entry]
  | .bool b, _ => by simp [convert_entry]
  | .i64 n, _ => by simp [convert_entry]
  | .u64 n, _ => by simp [convert_entry]
  | .f64 q, _ => by simp [convert_entry]
  | .str s, _ => by simp [convert_entry]
  | .arr xs, h => by
      simp only [objFree] at h
      simp [convert_entry, convertList_objFree xs h]
  | .obj kvs, h => by simp [objFree] at h
termination_by v => sizeOf v
decreasing_by
  all_goals (simp <;> omega)
theorem convertList_objFree : ∀ (xs : List Value), objFreeList xs = true → convertList xs = some xs
  | [], _ => by simp [convertList]
  | x :: xs, h => by
      simp only [objFreeList, Bool.and_eq_true] at h
      simp [convertList, convert_entry_objFree x h.1, convertList_objFree xs h.2]
termination_by xs => sizeOf xs
decreasing_by
  all_goals (simp <;> omega)
end

/-- Claim C5 as amended: strings, numbers, booleans and null pass through
the pre-transform unchanged, and so does any value free of JSON objects;
but an object lacking t or c makes the pre-transform panic rather than
pass it through. -/
theorem C5_leaf_identity :
    (convert_entry Value.null = some Value.null)
    ∧ (∀ b, convert_entry (Value.bool b) = some (Value.bool b))
    ∧ (∀ n, convert_entry (Value.i64 n) = some (Value.i64 n))
    ∧ (∀ n, convert_entry (Value.u64 n) = some (Value.u64 n))
    ∧ (∀ q, convert_entry (Value.f64 q) = some (Value.f64 q))
    ∧ (∀ s, convert_entry (Value.str s) = some (Value.str s))
    ∧ (∀ v, objFree v = true → convert_entry v = some v) :=
  ⟨by simp [convert_entry], fun b => by simp [convert_entry], fun n => by simp [convert_entry],
   fun n => by simp [convert_entry], fun q => by simp [convert_entry],
   fun s => by simp [convert_entry], convert_entry_objFree⟩

/-- Claim C5, witness. -/
theorem C5_witness :
    objFree (Value.arr [Value.str "x", Value.null]) = true
    ∧ convert_entry (Value.arr [Value.str "x", Value.null])
      = some (Value.arr [Value.str "x", Value.null]) :=
  ⟨by simp [objFree, objFreeList],
   C5_leaf_identity.2.2.2.2.2.2 _ (by simp [objFree, objFreeList])⟩

/-- Claim C6: the walker does not preserve the Para container: walking a
Para with the identity function yields a Plain (the Para arm of the
source rebuilds with the Plain constructor), contradicting the contract
that only the Inline payloads change. -/
theorem C6_para_rebuilt_as_plain :
    walkBlock (fun i => i) (Block.Para [Inline.Str "a"]) = Block.Plain [Inline.Str "a"]
    ∧ Block.Plain [Inline.Str "a"] ≠ Block.Para [Inline.Str "a"] := by
  constructor
  · simp [walkBlock, walkInlines, walkInline]
  · simp

/-- Claim C7, counterexample: a structural decode failure inside a
well-shaped two-element wire array does not yield a typed error result;
Pandoc::new panics on the unwrap. -/
theorem C7_counterexample :
    deserialize (Value.arr [Value.null, Value.arr []]) = Outcome.panicked := by
  simp [deserialize, pandocNew, decodeMeta]

/-- Claim C7 as amended: when the top-level shape is a two-element array
and the structural decode of either element fails, the pipeline panics
(it does not return a typed error, and it returns no document). -/
theorem C7_decode_failure_panics (m b : Value) (h : pandocNew m b = none) :
    deserialize (Value.arr [m, b]) = Outcome.panicked := by
  simp [deserialize, h]

/-- Claim C7, witness. -/
theorem C7_witness :
    pandocNew (Value.str "x") (Value.arr []) = none
    ∧ deserialize (Value.arr [Value.str "x", Value.arr []]) = Outcome.panicked :=
  ⟨by simp [pandocNew, decodeMeta],
   C7_decode_failure_panics _ _ (by simp [pandocNew, decodeMeta])⟩

/-- Claim C8: the pipeline returns a shape error exactly when the parsed
top-level value is not an array or has a length other than two; a
two-element array passes the validation and never produces an error
string (it either yields a document or panics in Pandoc::new). -/
theorem C8_shape_error_iff (v : Value) :
    (∃ e, deserialize v = Outcome.err e) ↔ claimShapeBad v = true := by
  cases v with
  | arr xs =>
    match xs with
    | [] => simp [deserialize, claimShapeBad]
    | [a] => simp [deserialize, claimShapeBad]
    | [a, b] =>
      cases h : pandocNew a b <;> simp [deserialize, h, claimShapeBad]
    | a :: b :: c :: tl => simp [deserialize, claimShapeBad]
  | null => simp [deserialize, claimShapeBad]
  | bool b => simp [deserialize, claimShapeBad]
  | i64 n => simp [deserialize, claimShapeBad]
  | u64 n => simp [deserialize, claimShapeBad]
  | f64 q => simp [deserialize, claimShapeBad]
  | str s => simp [deserialize, claimShapeBad]
  | obj kvs => simp [deserialize, claimShapeBad]

/-- Claim C9, counterexample: Inline::Space does not encode as the bare
string of its variant name; the serialize_enum units group encodes it as
a single-key object with an empty-array payload. -/
theorem C9_counterexample :
    encodeInline Inline.Space = Value.obj [("Space", Value.arr [])]
    ∧ encodeInline Inline.Space ≠ Value.str "Space" := by
  constructor <;> simp [encodeInline]

/-- Claim C9 as amended: the derived unit variants of Block
(HorizontalRule, Null) encode as bare strings, while the serialize_enum
units of Inline (Space, SoftBreak, LineBreak) and every variant of the
five zero-argument enumerations encode as single-key objects with an
empty-array payload. -/
theorem C9_unit_variant_encodings :
    encodeBlock .HorizontalRule = .str "HorizontalRule"
    ∧ encodeBlock .Null = .str "Null"
    ∧ encodeInline .Space = .obj [("Space", .arr [])]
    ∧ encodeInline .SoftBreak = .obj [("SoftBreak", .arr [])]
    ∧ encodeInline .LineBreak = .obj [("LineBreak", .arr [])]
    ∧ encodeAlignment .AlignLeft = .obj [("AlignLeft", .arr [])]
    ∧ encodeAlignment .AlignRight = .obj [("AlignRight", .arr [])]
    ∧ encodeAlignment .AlignCenter = .obj [("AlignCenter", .arr [])]
    ∧ encodeAlignment .AlignDefault = .obj [("AlignDefault", .arr [])]
    ∧ encodeMathType .DisplayMath = .obj [("DisplayMath", .arr [])]
    ∧ encodeMathType .InlineMath = .obj [("InlineMath", .arr [])]
    ∧ encodeQuoteType .SingleQuote = .obj [("SingleQuote", .arr [])]
    ∧ encodeQuoteType .DoubleQuote = .obj [("DoubleQuote", .arr [])]
    ∧ encodeListNumberStyle .DefaultStyle = .obj [("DefaultStyle", .arr [])]
    ∧ encodeListNumberStyle .Example = .obj [("Example", .arr [])]
    ∧ encodeListNumberStyle .Decimal = .obj [("Decimal", .arr [])]
    ∧ encodeListNumberStyle .LowerRoman = .obj [("LowerRoman", .arr [])]
    ∧ encodeListNumberStyle .UpperRoman = .obj [("UpperRoman", .arr [])]
    ∧ encodeListNumberStyle .LowerAlpha = .obj [("LowerAlpha", .arr [])]
    ∧ encodeListNumberStyle .UpperAlpha = .obj [("UpperAlpha", .arr [])]
    ∧ encodeListNumberDelim .DefaultDelim = .obj [("DefaultDelim", .arr [])]
    ∧ encodeListNumberDelim .Period = .obj [("Period", .arr [])]
    ∧ encodeListNumberDelim .OneParen = .obj [("OneParen", .arr [])]
    ∧ encodeListNumberDelim .TwoParens = .obj [("TwoParens", .arr [])] := by
  refine ⟨?_, ?_, ?_, ?_, ?_, ?_, ?_, ?_, ?_, ?_, ?_, ?_, ?_, ?_, ?_, ?_, ?_, ?_, ?_,
    ?_, ?_, ?_, ?_, ?_⟩
  all_goals simp [encodeBlock, encodeInline, encodeAlignment, encodeMathType,
    encodeQuoteType, encodeListNumberStyle, encodeListNumberDelim]

/-- Claim C10: the Citation codec keys the mode field with the
all-lowercase name: decoding any object without a citationmode key fails,
and every encoded Citation carries exactly the six renamed keys, the mode
under citationmode and the other five in camelCase. -/
theorem C10_citationmode_key :
    (∀ kvs : List (String × Value), lookupKey "citationmode" kvs = none →
      decodeCitation (Value.obj kvs) = none)
    ∧ (∀ c : Citation, objKeys (encodeCitation c) =
        ["citationId", "citationPrefix", "citationSuffix", "citationmode",
         "citationNoteNum", "citationHash"]) := by
  constructor
  · intro kvs h
    simp only [decodeCitation]
    split
    · split
      · simp_all
      · rfl
    · rfl
  · intro c
    cases c
    simp [encodeCitation, objKeys]

/-- Claim C10, witness: a Citation object keying the mode as citationMode
(capital M) has no citationmode key and fails to decode. -/
theorem C10_witness :
    lookupKey "citationmode"
      [("citationId", Value.str "id1"), ("citationPrefix", Value.arr []),
       ("citationSuffix", Value.arr []), ("citationMode", Value.str "NormalCitation"),
       ("citationNoteNum", Value.u64 0), ("citationHash", Value.u64 0)] = none
    ∧ decodeCitation (Value.obj
      [("citationId", Value.str "id1"), ("citationPrefix", Value.arr []),
       ("citationSuffix", Value.arr []), ("citationMode", Value.str "NormalCitation"),
       ("citationNoteNum", Value.u64 0), ("citationHash", Value.u64 0)]) = none :=
  ⟨by simp [lookupKey],
   C10_citationmode_key.1 _ (by simp [lookupKey])⟩

/-- Claim C2, counterexample: the walker does not rewrite the Inline
children nested inside another Inline, so it differs from the bottom-up
deep rewrite demanded by the claim already on a Plain block holding an
Emph around a Str. -/
theorem C2_counterexample :
    walkBlock (fun i => match i with | .Str "a" => Inline.Str "b" | x => x)
        (Block.Plain [Inline.Emph [Inline.Str "a"]])
    ≠ walkBlockDeep (fun i => match i with | .Str "a" => Inline.Str "b" | x => x)
        (Block.Plain [Inline.Emph [Inline.Str "a"]]) := by
  simp [walkBlock, walkInlines, walkInline, walkBlockDeep, walkInlinesDeep, walkInlineDeep]


/-- Claim C2 as amended: the walker applies f exactly once to each Inline
standing directly in a block inline sequence, recursing through nested
Block structure but never into the Inline children of an Inline; walking
an Inline is a single application of f; the Para container is rebuilt as
Plain (the separate defect of claim C6). -/
theorem C2_walker_toplevel_inlines (f : Inline → Inline) :
    (∀ i, walkInline f i = f i)
    ∧ (∀ is2, walkBlock f (.Plain is2) = .Plain (is2.map f))
    ∧ (∀ is2, walkBlock f (.Para is2) = .Plain (is2.map f))
    ∧ (∀ a s, walkBlock f (.CodeBlock a s) = .CodeBlock a s)
    ∧ (∀ fm s, walkBlock f (.RawBlock fm s) = .RawBlock fm s)
    ∧ (∀ bs, walkBlock f (.BlockQuote bs) = .BlockQuote (bs.map (walkBlock f)))
    ∧ (∀ la bss, walkBlock f (.OrderedList la bss)
        = .OrderedList la (bss.map (fun bs => bs.map (walkBlock f))))
    ∧ (∀ bss, walkBlock f (.BulletList bss)
        = .BulletList (bss.map (fun bs => bs.map (walkBlock f))))
    ∧ (∀ items, walkBlock f (.DefinitionList items)
        = .DefinitionList (items.map (fun p =>
            (p.1.map f, p.2.map (fun bs => bs.map (walkBlock f))))))
    ∧ (∀ n a is2, walkBlock f (.Header n a is2) = .Header n a (is2.map f))
    ∧ (walkBlock f .HorizontalRule = .HorizontalRule)
    ∧ (∀ capt als ws hs rs, walkBlock f (.Table capt als ws hs rs)
        = .Table (capt.map f) als ws (hs.map (fun bs => bs.map (walkBlock f)))
            (rs.map (fun bss => bss.map (fun bs => bs.map (walkBlock f)))))
    ∧ (∀ a bs, walkBlock f (.Div a bs) = .Div a (bs.map (walkBlock f)))
    ∧ (walkBlock f .Null = .Null)
    ∧ (∀ bs, walkBlocks f bs = bs.map (walkBlock f)) := by
  refine ⟨fun i => rfl, ?_, ?_, ?_, ?_, ?_, ?_, ?_, ?_, ?_, ?_, ?_, ?_, ?_, ?_⟩
  all_goals intros
  all_goals simp [walkBlock, walkInlines_map, walkBlocks_map, walkBlockss_map,
    walkBlocksss_map, walkDefItems_map]


/-- Claim C3, counterexample: the pipeline decodes the metadata value
without any pre-transform: on the empty metadata object the constructor
succeeds, while the claimed pipeline, which pre-transforms the metadata
with convert_entry, panics, since the unMeta wrapper object carries no t
and c keys. -/
theorem C3_counterexample :
    pandocNew (Value.obj [("unMeta", Value.obj [])]) (Value.arr [])
    ≠ pandocNewClaim (Value.obj [("unMeta", Value.obj [])]) (Value.arr []) := by
  simp [pandocNew, pandocNewClaim, decodeMeta, decodeMetaEntries, decodeBlocksValue,
        decodeBlockArr, convert_entry, convertAtC, convertList, lookupKey]


/-- Compact form of the wire Header example after the pre-transform. -/
def headerCompact : Value :=
  .obj [("Header", .arr [.u64 1,
                         .arr [.str "test", .arr [], .arr []],
                         .arr [.obj [("Str", .str "Test")]]])]

theorem convert_wireHeader : convert_entry wireHeader = some headerCompact := by
  simp [wireHeader, headerCompact, convert_entry, convertAtC, convertList, lookupKey]


theorem decode_headerCompact :
    decodeBlock headerCompact
      = some (Block.Header 1 ("test", [], []) [Inline.Str "Test"]) := by
  simp [headerCompact, decodeBlock, blockTagOf, decodeBlockTagged, decodeAttr,
        decodeStrArr, decodePairArr, decodeInlineArr, decodeInline, inlineTagOf,
        decodeInlineTagged]


theorem convert_wireBlocks :
    convert_entry (Value.arr [wireHeader]) = some (Value.arr [headerCompact]) := by
  simp [convert_entry, convertList, convert_wireHeader]


theorem pandocNew_some (m b : Value) (mm : Meta) (cb : Value) (bs : List Block)
    (h1 : decodeMeta m = some mm) (h2 : convert_entry b = some cb)
    (h3 : decodeBlocksValue cb = some bs) : pandocNew m b = some ⟨mm, bs⟩ := by
  simp only [pandocNew, h1, h2, h3, Option.some_bind]

/-- Claim C3 as amended: only the block sequence is run through the t/c
pre-transform before structural decoding; the metadata value is decoded
directly (applying convert_entry to a metadata object would panic), and
the blocks do need the pre-transform, as the wire Header example decodes
only through it. -/
theorem C3_pretransform_blocks_only :
    pandocNew (Value.obj [("unMeta", Value.obj [])]) (Value.arr [])
      = some ⟨⟨[]⟩, []⟩
    ∧ convert_entry (Value.obj [("unMeta", Value.obj [])]) = none
    ∧ decodeBlocksValue (Value.arr [wireHeader]) = none
    ∧ pandocNew (Value.obj [("unMeta", Value.obj [])]) (Value.arr [wireHeader])
      = some ⟨⟨[]⟩, [Block.Header 1 ("test", [], []) [Inline.Str "Test"]]⟩ := by
  have h1 : decodeMeta (Value.obj [("unMeta", Value.obj [])]) = some ⟨[]⟩ := by
    simp [decodeMeta, decodeMetaEntries]
  have h3 : decodeBlocksValue (Value.arr [headerCompact])
      = some [Block.Header 1 ("test", [], []) [Inline.Str "Test"]] := by
    simp [decodeBlocksValue, decodeBlockArr, decode_headerCompact]
  refine ⟨?_, ?_, ?_, ?_⟩
  · simp [pandocNew, decodeMeta, decodeMetaEntries, decodeBlocksValue, decodeBlockArr,
          convert_entry, convertAtC, convertList, lookupKey]
  · simp [convert_entry, convertAtC, lookupKey]
  · simp [wireHeader, decodeBlocksValue, decodeBlockArr, decodeBlock]
  · exact pandocNew_some _ _ _ _ _ h1 convert_wireBlocks h3
end PandocRs
